import Mathlib

/-!
Verification of the batch execution engine of the grok-imagine image server
(`src/utils/batch-config.ts`: `Semaphore`, `MODEL_COSTS`, `BatchManager.estimateBatchCost`,
`BatchManager.executeBatch`, `BatchManager.executeJob`, plus the configuration
defaulting in `mergeBatchConfig`).

The TypeScript code is embedded shallowly:

* JavaScript strings are Lean `String`s; the JS notions used by the code
  (`toLowerCase`, `includes`, `trim`, truthiness of optional strings and
  numbers, `??` defaulting) are defined below with JS semantics.
* Monetary amounts (`MODEL_COSTS`, cost estimates) are embedded as exact
  rationals; the engine only adds and multiplies small decimal constants.
* The external image operation (`generateImage` / `editImage`) is an opaque
  capability: each attempt of a job either succeeds with an API result value
  or throws with an error message.  It is passed to the embedded executor as
  a function from the attempt number to that outcome.
* Wall-clock quantities (`Date.now()` timestamps, ISO date strings,
  `duration_ms`, `started_at`, `finished_at`, `total_duration_ms`) are not
  modelled; instead the executor additionally reports the number of attempts
  it performed and the list of sleeps (`setTimeout(retryDelay)`) it executed,
  which is what the retry claims are about.
* The completion race in `executeBatch` is modelled by a parameter `order`:
  the list of (0-based) indices of the jobs whose tasks finished before the
  cancellation sweep, in the order in which they pushed their results.
-/

namespace GrokBatch

/-! ## JavaScript string primitives -/

/-- JS `s.toLowerCase()` (per-character lowering). -/
def toLowerStr (s : String) : String := String.mk (s.data.map Char.toLower)

/-- JS emptiness check on a string. -/
def strEmpty (s : String) : Bool := s.data.isEmpty

/-- Character-list helper: does `pat` occur at the very start of `s`? -/
def charsHasPre : List Char → List Char → Bool
  | [], _ => true
  | _ :: _, [] => false
  | p :: ps, c :: cs => p = c && charsHasPre ps cs

/-- Character-list helper: does `pat` occur anywhere inside `s`? -/
def charsHasSub (pat : List Char) : List Char → Bool
  | [] => charsHasPre pat []
  | c :: cs => charsHasPre pat (c :: cs) || charsHasSub pat cs

/-- JS `s.includes(pat)`. -/
def jsIncludes (s pat : String) : Bool := charsHasSub pat.toList s.toList

/-- JS whitespace class `\s` (restricted to the ASCII whitespace characters,
which are the only ones the engine's messages contain). -/
def isJsWs (c : Char) : Bool :=
  c = ' ' || c = '\t' || c = '\n' || c = '\r' || c = '\x0b' || c = '\x0c'

/-- JS `s.trim()` on character lists. -/
def jsTrimChars (s : List Char) : List Char :=
  ((s.dropWhile isJsWs).reverse.dropWhile isJsWs).reverse

/-- Truthiness of an optional JS string (`undefined` and `""` are falsy). -/
def truthyStr : Option String → Bool
  | none => false
  | some s => !strEmpty s

/-- JS `a || b` chain ending in a string literal default, for optional
string-valued fields (`job.model || config.default_model || 'grok-imagine-image'`). -/
def strOr (a : Option String) (d : String) : String :=
  match a with
  | some s => if strEmpty s then d else s
  | none => d

/-- JS `a || d` for an optional number field (`job.n || 1`; `0` is falsy). -/
def natOr (a : Option Nat) (d : Nat) : Nat :=
  match a with
  | some k => if k = 0 then d else k
  | none => d

/-! ## Data model (mirrors `src/types/batch.ts`) -/

/-- One job entry of the batch file (`BatchJobConfig`). -/
structure BatchJobConfig where
  prompt : String
  output_path : Option String := none
  model : Option String := none
  aspect_ratio : Option String := none
  resolution : Option String := none
  n : Option Nat := none
  image_path : Option String := none
  image_base64 : Option String := none
  image_url : Option String := none
deriving DecidableEq, Repr

/-- Retry policy configuration (`RetryPolicy`). -/
structure RetryPolicy where
  max_retries : Option Nat := none
  retry_delay_ms : Option Nat := none
  retry_on_errors : Option (List String) := none
deriving DecidableEq, Repr

/-- Batch configuration file structure (`BatchConfig`). -/
structure BatchConfig where
  jobs : List BatchJobConfig
  output_dir : Option String := none
  max_concurrent : Option Nat := none
  timeout : Option Nat := none
  retry_policy : Option RetryPolicy := none
  default_model : Option String := none
  default_resolution : Option String := none
  default_aspect_ratio : Option String := none
deriving DecidableEq, Repr

/-- CLI execution options (`BatchExecutionOptions`; only the fields read by
`mergeBatchConfig` are modelled). -/
structure BatchExecutionOptions where
  outputDir : Option String := none
  timeout : Option Nat := none
  maxConcurrent : Option Nat := none
deriving DecidableEq, Repr

/-- Result of a single batch job (`BatchJobResult`); the wall-clock field
`duration_ms` is not modelled. -/
structure BatchJobResult where
  index : Nat
  prompt : String
  status : String
  output_paths : Option (List String) := none
  error : Option String := none
  revised_prompt : Option String := none
  is_edit : Option Bool := none
deriving DecidableEq, Repr

/-- The built-in retryable error patterns
(`['rate_limit', 'timeout', '429', '503']`). -/
def defaultRetryPatterns : List String := ["rate_limit", "timeout", "429", "503"]

/-- Configuration defaulting of `mergeBatchConfig` (batch-config.ts:237-276).
`envOutputDir` stands for `process.env.OUTPUT_DIR`. -/
def mergeBatchConfig (config : BatchConfig) (options : BatchExecutionOptions)
    (envOutputDir : Option String) : BatchConfig :=
  let od1 := if !truthyStr config.output_dir && truthyStr envOutputDir then
    envOutputDir else config.output_dir
  let od2 := if truthyStr options.outputDir then options.outputDir else od1
  let mc := if options.maxConcurrent.isSome then options.maxConcurrent else config.max_concurrent
  let tm := if options.timeout.isSome then options.timeout else config.timeout
  { config with
    output_dir := od2
    max_concurrent := some (mc.getD 2)
    timeout := some (tm.getD 600000)
    default_model := some (strOr config.default_model "grok-imagine-image")
    default_resolution := some (strOr config.default_resolution "1k")
    default_aspect_ratio := some (strOr config.default_aspect_ratio "1:1")
    retry_policy := some (config.retry_policy.getD
      { max_retries := some 2
        retry_delay_ms := some 1000
        retry_on_errors := some defaultRetryPatterns }) }

/-! ## Retry decision (batch-config.ts:654-659)

The job executor computes, on each failed attempt,
`shouldRetry = attempt < maxRetries && retryPatterns.some(p => lastError.toLowerCase().includes(p.toLowerCase()))`. -/

/-- The retry decision of `executeJob`'s catch block. -/
def shouldRetry (lastError : String) (attempt maxRetries : Nat)
    (retryPatterns : List String) : Bool :=
  decide (attempt < maxRetries) &&
    retryPatterns.any (fun pattern => jsIncludes (toLowerStr lastError) (toLowerStr pattern))

/-- Spec-side decision function, stated in the words of the specification:
true iff `attemptIndex < policy.maxRetries` and the error message contains,
case-insensitively, at least one retryable pattern as a substring. -/
def shouldRetrySpec (lastError : String) (attempt maxRetries : Nat)
    (retryPatterns : List String) : Prop :=
  attempt < maxRetries ∧
    ∃ p ∈ retryPatterns, jsIncludes (toLowerStr lastError) (toLowerStr p) = true

/-- Effective retry policy of `executeJob`
(`config.retry_policy || { max_retries: 2, retry_delay_ms: 1000 }`). -/
def effRetryPolicy (config : BatchConfig) : RetryPolicy :=
  config.retry_policy.getD { max_retries := some 2, retry_delay_ms := some 1000 }

/-- Effective `maxRetries` of `executeJob` (`retryPolicy.max_retries ?? 2`). -/
def effMaxRetries (config : BatchConfig) : Nat :=
  (effRetryPolicy config).max_retries.getD 2

/-- Effective `retryDelay` of `executeJob` (`retryPolicy.retry_delay_ms ?? 1000`). -/
def effRetryDelay (config : BatchConfig) : Nat :=
  (effRetryPolicy config).retry_delay_ms.getD 1000

/-- Effective retry patterns of `executeJob`
(`retryPolicy.retry_on_errors ?? ['rate_limit', 'timeout', '429', '503']`). -/
def effRetryPatterns (config : BatchConfig) : List String :=
  (effRetryPolicy config).retry_on_errors.getD defaultRetryPatterns

/-! ## Parsing the image operation's textual response (batch-config.ts:594-631)

On success, `executeJob` extracts saved output paths with the global regex
`/(?:saved|generated|edited)[^:]*:\s*([^\n]+)/gi`, applies `/:\s*(.+)/` to each
whole match and pushes the trimmed capture, and extracts an optional revised
prompt with `/Revised prompt:\s*(.+)/i`.  The scanner below is a direct
operational translation of those regexes (leftmost match, greedy with
backtracking, continuing after each match's end). -/

/-- Case-insensitive literal match of `kw` at the start of `s`. -/
def matchesLowerAt : List Char → List Char → Bool
  | [], _ => true
  | _ :: _, [] => false
  | k :: ks, c :: cs => k = Char.toLower c && matchesLowerAt ks cs

/-- Splitting at the first `':'`: returns the part before it (which contains
no colon, exactly what `[^:]*` followed by `:` can match) and the part after it. -/
def breakAtColon (s : List Char) : Option (List Char × List Char) :=
  match s.dropWhile (fun c => !(c = ':')) with
  | [] => none
  | _ :: rest => some (s.takeWhile (fun c => !(c = ':')), rest)

/-- Start position chosen by `\s*` followed by a greedy one-or-more character
class `ok`, with backtracking: the largest `p` not exceeding the maximal
whitespace run such that a character satisfying `ok` stands at `p`. -/
def findBodyStart (ok : Char → Bool) (tail : List Char) : Option Nat :=
  ((List.range ((tail.takeWhile isJsWs).length + 1)).reverse).find?
    (fun p => match tail.get? p with
      | some c => ok c
      | none => false)

/-- Character class of `[^\n]` (the capture of the path-extraction regex). -/
def notNl (c : Char) : Bool := !(c = '\n')

/-- Character class of JS `.` — neither `'\n'` nor `'\r'`
(the capture of `/:\s*(.+)/` and of the revised-prompt regex). -/
def jsDot (c : Char) : Bool := !(c = '\n') && !(c = '\r')

/-- The second regex `/:\s*(.+)/` applied to the part of a whole match that
follows its colon: `\s*` then a greedy `(.+)`, trimmed.  Returns `none` when
`(.+)` cannot match (then the code pushes nothing for this match). -/
def pathFromMatchTail (t : List Char) : Option String :=
  match findBodyStart jsDot t with
  | none => none
  | some p => some (String.mk (jsTrimChars ((t.drop p).takeWhile jsDot)))

/-- Attempt of the path regex at the current position: one of the keywords
(the alternatives start with distinct letters, so at most one applies), then
everything up to the first colon, the colon, then `\s*([^\n]+)` with greedy
backtracking.  Returns the extracted path (if the inner `/:\s*(.+)/` also
matches) and the remainder of the input after the whole match. -/
def tryMatchAt (s : List Char) : Option (Option String × List Char) :=
  match ["saved", "generated", "edited"].find? (fun kw => matchesLowerAt kw.toList s) with
  | none => none
  | some kw =>
    match breakAtColon (s.drop kw.length) with
    | none => none
    | some (_, tail) =>
      match findBodyStart notNl tail with
      | none => none
      | some p =>
        let body := (tail.drop p).takeWhile notNl
        some (pathFromMatchTail (tail.take p ++ body), tail.drop (p + body.length))

/-- Global scan of the path regex: try at each position, resume after each
match's end.  The fuel is the input length; every step consumes at least one
character. -/
def scanPathsAux : Nat → List Char → List String
  | 0, _ => []
  | _, [] => []
  | fuel + 1, c :: cs =>
    match tryMatchAt (c :: cs) with
    | some (some path, rest) => path :: scanPathsAux fuel rest
    | some (none, rest) => scanPathsAux fuel rest
    | none => scanPathsAux fuel cs

/-- All output paths extracted from a response text. -/
def scanPaths (s : String) : List String := scanPathsAux s.toList.length s.toList

/-- First match of `/Revised prompt:\s*(.+)/i`, trimmed. -/
def findRevisedAux : Nat → List Char → Option String
  | 0, _ => none
  | _, [] => none
  | fuel + 1, c :: cs =>
    if matchesLowerAt "revised prompt:".toList (c :: cs) then
      match pathFromMatchTail ((c :: cs).drop "revised prompt:".length) with
      | some r => some r
      | none => findRevisedAux fuel cs
    else findRevisedAux fuel cs

/-- Revised prompt extracted from a response text. -/
def findRevised (s : String) : Option String := findRevisedAux s.toList.length s.toList

/-! ## The external image operation and result parsing -/

/-- One entry of an MCP-style `content` array. -/
structure ContentItem where
  ctype : String
  text : Option String := none
deriving DecidableEq, Repr

/-- Value produced by a successful `generateImage` / `editImage` call, as
`executeJob` discriminates it: a plain string, an object with a `content`
array, or anything else. -/
inductive ApiResult where
  | strRes (text : String)
  | contentRes (items : List ContentItem)
  | otherRes
deriving DecidableEq, Repr

/-- Outcome of one attempt's call to the external image operation. -/
inductive AttemptResult where
  | success (r : ApiResult)
  | failure (message : String)
deriving DecidableEq, Repr

/-- Path and revised-prompt extraction of `executeJob` (batch-config.ts:594-631):
a string result is parsed directly; a result with a `content` array is parsed
from its first `type === 'text'` entry when that entry's `text` is truthy. -/
def parseApiResult : ApiResult → List String × Option String
  | .strRes s => (scanPaths s, findRevised s)
  | .contentRes items =>
    match items.find? (fun c => c.ctype = "text") with
    | some c =>
      match c.text with
      | some t => if strEmpty t then ([], none) else (scanPaths t, findRevised t)
      | none => ([], none)
    | none => ([], none)
  | .otherRes => ([], none)

/-! ## The job executor (batch-config.ts:546-678)

The executor's `for (let attempt = 0; attempt <= maxRetries; attempt++)` loop
is embedded as `runAttempts`, recursing on the number of attempts left.  Note
that the loop body's catch block computes `shouldRetry` but uses it only to
decide whether to sleep: when the decision is negative the loop nevertheless
proceeds to the next attempt (there is no `break`), which `runAttempts`
reproduces faithfully. -/

/-- Accumulated observation of the attempt loop: the first successful API
result (if any), the `lastError` variable, the number of attempts performed,
and the list of sleep durations executed. -/
structure RunOutcome where
  success : Option ApiResult
  lastError : String
  attemptsMade : Nat
  sleeps : List Nat
deriving DecidableEq, Repr

/-- The attempt loop.  `att` gives the result of the external image-operation
call on each attempt number; the loop starts at attempt `i` with
`maxRetries + 1 - i` iterations remaining and the current `lastError`. -/
def runAttempts (att : Nat → AttemptResult) (maxRetries retryDelay : Nat)
    (retryPatterns : List String) : Nat → Nat → String → RunOutcome
  | _, 0, lastError => ⟨none, lastError, 0, []⟩
  | i, remaining + 1, lastError =>
    match att i with
    | .success r => ⟨some r, lastError, 1, []⟩
    | .failure msg =>
      let sr := shouldRetry msg i maxRetries retryPatterns
      let rest := runAttempts att maxRetries retryDelay retryPatterns (i + 1) remaining msg
      ⟨rest.success, rest.lastError, rest.attemptsMade + 1,
        (if sr then [retryDelay] else []) ++ rest.sleeps⟩

/-- Is the job an edit job (`!!(job.image_path || job.image_base64 || job.image_url)`)? -/
def isEditJobConfig (job : BatchJobConfig) : Bool :=
  truthyStr job.image_path || truthyStr job.image_base64 || truthyStr job.image_url

/-- The completed-job result built at batch-config.ts:641-649: parsed output
paths with the fallback to the job's resolved output path when none were
extracted, plus the optional revised prompt. -/
def completedResult (jobIndex : Nat) (prompt : String) (r : ApiResult)
    (outputPath : String) (isEditJob : Bool) : BatchJobResult :=
  let parsed := parseApiResult r
  { index := jobIndex
    prompt := prompt
    status := "completed"
    output_paths := some (if parsed.1 = [] then [outputPath] else parsed.1)
    error := none
    revised_prompt := parsed.2
    is_edit := some isEditJob }

/-- The failed-job result built at batch-config.ts:669-677 after the loop
exits with no success. -/
def failedResult (jobIndex : Nat) (prompt lastError : String)
    (isEditJob : Bool) : BatchJobResult :=
  { index := jobIndex
    prompt := prompt
    status := "failed"
    output_paths := none
    error := some lastError
    revised_prompt := none
    is_edit := some isEditJob }

/-- The whole attempt loop of `executeJob`, started at attempt 0 with
`maxRetries + 1` iterations and `lastError = ''`. -/
def execRun (att : Nat → AttemptResult) (config : BatchConfig) : RunOutcome :=
  runAttempts att (effMaxRetries config) (effRetryDelay config)
    (effRetryPatterns config) 0 (effMaxRetries config + 1) ""

/-- `BatchManager.executeJob` (batch-config.ts:546-678).  Returns the job
result together with the number of attempts performed and the sleeps executed
(observations the TypeScript code makes through `debugLog` / `setTimeout`). -/
def executeJob (att : Nat → AttemptResult) (job : BatchJobConfig) (index : Nat)
    (outputPath : String) (config : BatchConfig) : BatchJobResult × Nat × List Nat :=
  let run := execRun att config
  (match run.success with
    | some r => completedResult (index + 1) job.prompt r outputPath (isEditJobConfig job)
    | none => failedResult (index + 1) job.prompt run.lastError (isEditJobConfig job),
   run.attemptsMade, run.sleeps)

/-! ## Cost estimation (batch-config.ts:373-441) -/

/-- Per-model pricing entry of the `MODEL_COSTS` table. -/
structure ModelCost where
  base : ℚ
  edit_input : ℚ
deriving DecidableEq, Repr

/-- The `MODEL_COSTS` table (batch-config.ts:373-378), with the decimal
dollar amounts embedded as exact rationals. -/
def MODEL_COSTS : List (String × ModelCost) :=
  [("grok-imagine-image", ⟨0.02, 0.002⟩),
   ("grok-2-image", ⟨0.07, 0⟩),
   ("grok-2-image-latest", ⟨0.07, 0⟩),
   ("grok-2-image-1212", ⟨0.07, 0⟩)]

/-- Property lookup in the cost table. -/
def lookupCost : List (String × ModelCost) → String → Option ModelCost
  | [], _ => none
  | (k, v) :: rest, m => if k = m then some v else lookupCost rest m

/-- `MODEL_COSTS[modelName] || MODEL_COSTS['grok-imagine-image']`
(batch-config.ts:416): unrecognized identifiers fall back to the default
model's pricing. -/
def lookupModelCost (m : String) : ModelCost :=
  match lookupCost MODEL_COSTS m with
  | some c => c
  | none => ⟨0.02, 0.002⟩

/-- Accumulated data of one `(model, isEdit)` group in `modelCounts`:
`{ count, images, isEdit }`, with `isEdit` fixed when the group is created. -/
structure GroupData where
  count : Nat
  images : Nat
  isEdit : Bool
deriving DecidableEq, Repr

/-- Adding one job to the `modelCounts` record: JS objects keep string keys in
insertion order, so the record is an insertion-ordered association list. -/
def addJob (key : String) (n : Nat) (isEdit : Bool) :
    List (String × GroupData) → List (String × GroupData)
  | [] => [(key, ⟨1, n, isEdit⟩)]
  | (k, d) :: rest =>
    if k = key then (k, ⟨d.count + 1, d.images + n, d.isEdit⟩) :: rest
    else (k, d) :: addJob key n isEdit rest

/-- The grouping loop of `estimateBatchCost` (batch-config.ts:397-408):
for each job, resolve the effective model, image count and edit flag, and
accumulate into the group keyed by `` `${model}${isEdit ? '_edit' : ''}` ``. -/
def groupJobs (config : BatchConfig) : List (String × GroupData) :=
  config.jobs.foldl
    (fun acc job =>
      let model := strOr job.model (strOr config.default_model "grok-imagine-image")
      let n := natOr job.n 1
      let isEdit := isEditJobConfig job
      addJob (model ++ (if isEdit then "_edit" else "")) n isEdit acc)
    []

/-- JS `key.replace('_edit', '')`: removes the first occurrence only. -/
def dropFirstEdit : List Char → List Char
  | [] => []
  | c :: cs =>
    if charsHasPre "_edit".toList (c :: cs) then (c :: cs).drop "_edit".length
    else c :: dropFirstEdit cs

/-- The per-group cost (batch-config.ts:415-419):
`costs.base * data.images + (data.isEdit ? costs.edit_input * data.count : 0)`. -/
def groupCost (key : String) (data : GroupData) : ℚ :=
  let costs := lookupModelCost (String.mk (dropFirstEdit key.toList))
  costs.base * data.images + (if data.isEdit then costs.edit_input * data.count else 0)

/-- One entry of the estimate's `breakdown`. -/
structure BreakdownEntry where
  model : String
  count : Nat
  images : Nat
  costMin : ℚ
  costMax : ℚ
deriving DecidableEq, Repr

/-- The `CostEstimate` record. -/
structure CostEstimate where
  totalJobs : Nat
  totalImages : Nat
  estimatedCostMin : ℚ
  estimatedCostMax : ℚ
  breakdown : List BreakdownEntry
deriving DecidableEq, Repr

/-- `BatchManager.estimateBatchCost` (batch-config.ts:393-441). -/
def estimateBatchCost (config : BatchConfig) : CostEstimate :=
  let groups := groupJobs config
  { totalJobs := config.jobs.length
    totalImages := (groups.map (fun g => g.2.images)).sum
    estimatedCostMin := (groups.map (fun g => groupCost g.1 g.2)).sum
    estimatedCostMax := (groups.map (fun g => groupCost g.1 g.2)).sum
    breakdown := groups.map (fun g =>
      ⟨g.1, g.2.count, g.2.images, groupCost g.1 g.2, groupCost g.1 g.2⟩) }

/-- Cost formula in the specification's words: per `(model, isEdit)` group,
`baseCostPerImage × imageCount + (isEdit ? editSurchargePerJob × jobCount : 0)`. -/
def specGroupCost (baseCostPerImage editSurchargePerJob : ℚ)
    (imageCount jobCount : Nat) (isEdit : Bool) : ℚ :=
  baseCostPerImage * imageCount + (if isEdit then editSurchargePerJob * jobCount else 0)

/-! ## The batch scheduler (batch-config.ts:446-541)

Each job's task pushes exactly one result (its own index) into `results`; the
timeout race only decides which tasks get to push before the sweep runs.  The
embedding therefore takes the nondeterministic schedule as a parameter
`order`: the 0-based indices of the jobs whose tasks finished before the
sweep, in the order in which they pushed.  `resolvedPaths i` stands for
`resolveOutputPath(jobs[i], i, outputDir, allowAnyPath)` and `att i` for the
external image-operation behaviour seen by job `i`.  After the race,
`executeBatch` marks every index without a recorded outcome as cancelled,
sorts by index, and tallies the three statuses. -/

/-- Aggregate batch result (`BatchResult`); the wall-clock fields
(`started_at`, `finished_at`, `total_duration_ms`) are not modelled. -/
structure BatchResult where
  total : Nat
  succeeded : Nat
  failed : Nat
  cancelled : Nat
  results : List BatchJobResult
  estimated_cost : ℚ
deriving DecidableEq, Repr

/-- The synthesized outcome of the cancellation sweep (batch-config.ts:507-513). -/
def cancelledResult (jobIndex : Nat) (prompt : String) : BatchJobResult :=
  { index := jobIndex
    prompt := prompt
    status := "cancelled"
    output_paths := none
    error := some "Job cancelled due to timeout"
    revised_prompt := none
    is_edit := none }

/-- The results recorded by the job tasks that finished before the sweep
(`results.push(result)` at batch-config.ts:472), in completion order. -/
def batchFinished (config : BatchConfig) (att : Nat → Nat → AttemptResult)
    (resolvedPaths : Nat → String) (order : List Nat) : List BatchJobResult :=
  order.filterMap (fun i =>
    config.jobs[i]?.map (fun job => (executeJob (att i) job i (resolvedPaths i) config).1))

/-- The cancellation sweep (batch-config.ts:503-514): every job index not in
the set of recorded result indices receives a synthesized cancelled outcome. -/
def batchCancelledFill (config : BatchConfig) (completedIndices : List Nat) :
    List BatchJobResult :=
  (List.range config.jobs.length).filterMap (fun i =>
    if (i + 1) ∈ completedIndices then none
    else config.jobs[i]?.map (fun job => cancelledResult (i + 1) job.prompt))

/-- The final result list: recorded plus synthesized outcomes, sorted by
1-based job index (`results.sort((a, b) => a.index - b.index)`; the indices
are distinct, so the stable JS sort is determined by the order alone). -/
def batchResults (config : BatchConfig) (att : Nat → Nat → AttemptResult)
    (resolvedPaths : Nat → String) (order : List Nat) : List BatchJobResult :=
  List.insertionSort (fun a b => a.index ≤ b.index)
    (batchFinished config att resolvedPaths order ++
      batchCancelledFill config
        ((batchFinished config att resolvedPaths order).map (fun r => r.index)))

/-- `BatchManager.executeBatch` (batch-config.ts:446-541). -/
def executeBatch (config : BatchConfig) (att : Nat → Nat → AttemptResult)
    (resolvedPaths : Nat → String) (order : List Nat) : BatchResult :=
  let results := batchResults config att resolvedPaths order
  { total := config.jobs.length
    succeeded := results.countP (fun r => decide (r.status = "completed"))
    failed := results.countP (fun r => decide (r.status = "failed"))
    cancelled := results.countP (fun r => decide (r.status = "cancelled"))
    results := results
    estimated_cost := (estimateBatchCost config).estimatedCostMin }

/-! ## The concurrency limiter (batch-config.ts:341-368)

The `Semaphore` holds a permit counter and a FIFO queue of suspended
acquirers.  `acquire()` consumes a permit when one is available and otherwise
suspends the caller at the back of the queue; `release()` wakes the queue's
front waiter if any (handing the permit over directly) and otherwise returns
the permit to the counter.  The embedding is a step relation on the
semaphore's state; waiters are identified by the order in which they were
enqueued, and the state additionally records, as history variables, the list
of waiters ever enqueued and the list of waiters woken so far. -/

/-- Operations on the semaphore. -/
inductive SemOp where
  | acquire
  | release
deriving DecidableEq, Repr

/-- State of the semaphore: the permit counter, the waiter queue (front
first), the number of tasks currently holding a permit, a fresh-identifier
counter, and the enqueue/wake histories. -/
structure SemState where
  permits : Nat
  queue : List Nat
  active : Nat
  nextId : Nat
  enqueued : List Nat
  woken : List Nat
deriving DecidableEq, Repr

/-- Initial state: `new Semaphore(C)` starts with `C` permits, an empty
queue, and no permit holders. -/
def semInit (c : Nat) : SemState :=
  { permits := c, queue := [], active := 0, nextId := 0, enqueued := [], woken := [] }

/-- One step of the semaphore.  `acquire`: when `permits > 0`, decrement and
run (the caller becomes a holder); otherwise push the caller's resolver at
the back of the queue.  `release`: `queue.shift()` — wake the front waiter if
any (it becomes a holder in the releaser's stead, so `active` is unchanged);
otherwise increment `permits`. -/
def semStep (s : SemState) : SemOp → SemState
  | .acquire =>
    if 0 < s.permits then
      { s with permits := s.permits - 1, active := s.active + 1 }
    else
      { s with queue := s.queue ++ [s.nextId], enqueued := s.enqueued ++ [s.nextId],
               nextId := s.nextId + 1 }
  | .release =>
    match s.queue with
    | w :: ws => { s with queue := ws, woken := s.woken ++ [w] }
    | [] => { s with permits := s.permits + 1, active := s.active - 1 }

/-- Running a list of operations. -/
def semRun (s : SemState) : List SemOp → SemState
  | [] => s
  | op :: rest => semRun (semStep s op) rest

/-- Valid usage: `release()` is only ever called by a task that holds a
permit (in `executeBatch` it sits in the `finally` of a resolved `acquire()`). -/
def semValid (s : SemState) : List SemOp → Bool
  | [] => true
  | op :: rest =>
    (match op with
      | SemOp.acquire => true
      | SemOp.release => decide (0 < s.active)) && semValid (semStep s op) rest

/-! ## Effectful wrapper for the cost estimator

`estimateBatchCost` performs no `await`, no filesystem call and no mutation:
its body only reads its argument and the constant `MODEL_COSTS` table.  Its
embedding into an explicit world-passing form is therefore the pure function
paired with the unchanged world. -/

/-- Ambient state visible to the process: a file system and the environment. -/
structure World where
  fileSystem : List (String × String)
  env : List (String × String)
deriving DecidableEq, Repr

/-- World-passing form of `estimateBatchCost`. -/
def estimateBatchCostRun (config : BatchConfig) (w : World) : CostEstimate × World :=
  (estimateBatchCost config, w)

/-! ## Concrete fixtures used by witnesses and counterexamples -/

/-- A minimal generation job. -/
def sampleJob : BatchJobConfig := { prompt := "a cat" }

/-- A minimal batch configuration with no explicit retry policy. -/
def sampleConfig : BatchConfig := { jobs := [sampleJob] }

/-- An external operation that always fails with a non-retryable message. -/
def hardFailAtt : Nat → AttemptResult :=
  fun _ => AttemptResult.failure "Unauthorized: invalid API key"

/-- A rate-limit error message matching the default pattern `429`. -/
def rateLimitMsg : String := "Error 429: Too Many Requests"

/-- An external operation that always fails with a rate-limit message. -/
def rateLimitAtt : Nat → AttemptResult :=
  fun _ => AttemptResult.failure rateLimitMsg

/-- An external operation that succeeds with a response text from which no
saved-path line can be parsed. -/
def blankOkAtt : Nat → AttemptResult :=
  fun _ => AttemptResult.success (ApiResult.strRes "ok")

/-! ## Executor lemmas -/

/-- Both branches of `executeJob` tag the outcome with the 1-based job index. -/
theorem executeJob_index (att : Nat → AttemptResult) (job : BatchJobConfig)
    (index : Nat) (out : String) (config : BatchConfig) :
    (executeJob att job index out config).1.index = index + 1 := by
  cases h : (execRun att config).success <;>
    simp [executeJob, h, completedResult, failedResult]

/-- The executor's outcome status is `completed` or `failed`. -/
theorem executeJob_status (att : Nat → AttemptResult) (job : BatchJobConfig)
    (index : Nat) (out : String) (config : BatchConfig) :
    (executeJob att job index out config).1.status = "completed" ∨
      (executeJob att job index out config).1.status = "failed" := by
  cases h : (execRun att config).success
  · exact Or.inr (by simp [executeJob, h, failedResult])
  · exact Or.inl (by simp [executeJob, h, completedResult])

/-- Unfolding of one iteration of the attempt loop. -/
theorem runAttempts_succ (att : Nat → AttemptResult) (m d : Nat) (ps : List String)
    (i k : Nat) (le : String) :
    runAttempts att m d ps i (k + 1) le =
      match att i with
      | AttemptResult.success r => ⟨some r, le, 1, []⟩
      | AttemptResult.failure msg =>
        let rest := runAttempts att m d ps (i + 1) k msg
        ⟨rest.success, rest.lastError, rest.attemptsMade + 1,
          (if shouldRetry msg i m ps then [d] else []) ++ rest.sleeps⟩ := rfl

/-- When every attempt fails and every failure message matches a retryable
pattern, the attempt loop runs all its iterations: starting at attempt `i`
with `k` iterations left (`i + k = m + 1`), it performs exactly `k` attempts,
sleeps before each attempt except the last, ends with the last attempt's
message in `lastError`, and finds no success. -/
theorem runAttempts_all_retryable (att : Nat → AttemptResult) (e : Nat → String)
    (m d : Nat) (ps : List String)
    (hatt : ∀ j, att j = AttemptResult.failure (e j))
    (hm : ∀ j, ps.any (fun p => jsIncludes (toLowerStr (e j)) (toLowerStr p)) = true) :
    ∀ k i le, i + k = m + 1 →
      runAttempts att m d ps i k le =
        ⟨none, if k = 0 then le else e m, k, List.replicate (k - 1) d⟩ := by
  intro k
  induction k with
  | zero => intro i le _; simp [runAttempts]
  | succ k ih =>
    intro i le hk
    have hik : (i + 1) + k = m + 1 := by omega
    have hrest := ih (i + 1) (e i) hik
    rw [runAttempts_succ, hatt i]
    dsimp only
    rw [hrest]
    rcases k with _ | k
    · have hi : i = m := by omega
      subst hi
      have hsr : shouldRetry (e i) i i ps = false := by
        simp [shouldRetry]
      simp [hsr]
    · have hi : i < m := by omega
      have hsr : shouldRetry (e i) i m ps = true := by
        simp [shouldRetry, hi, hm i]
      simp [hsr, List.replicate_succ]

/-! ## C1 — non-retryable errors do not short-circuit the attempt loop

The loop body computes the retry decision but only gates the sleep with it;
lacking a `break`, it re-issues the call on the next iteration even for a
non-retryable error.  The evaluation below exhibits this: with the default
policy (`maxRetries = 2`) and an error matching no retryable pattern, the
executor performs 3 attempts (with no sleeps) before returning `failed`. -/

/-- A job failing with the non-retryable message `"Unauthorized: invalid API
key"` under the default policy (`maxRetries = 2`) is attempted 3 times — not
once — with no sleeps in between, and then fails with that message. -/
theorem executeJob_nonretryable_runs_all_attempts :
    effMaxRetries sampleConfig = 2 ∧
    shouldRetry "Unauthorized: invalid API key" 0 (effMaxRetries sampleConfig)
      (effRetryPatterns sampleConfig) = false ∧
    (executeJob hardFailAtt sampleJob 0 "generated_1.jpg" sampleConfig).2.1 = 3 ∧
    (executeJob hardFailAtt sampleJob 0 "generated_1.jpg" sampleConfig).2.2 = [] ∧
    (executeJob hardFailAtt sampleJob 0 "generated_1.jpg" sampleConfig).1.status = "failed" := by
  refine ⟨rfl, by decide, ?_, ?_, ?_⟩ <;> decide

/-! ## C3 — retry bound for jobs whose every attempt fails retryably -/

/-- A job whose every attempt fails with a message matching a retryable
pattern is attempted exactly `maxRetries + 1` times, with a sleep of
`retryDelayMs` between consecutive attempts, and then fails carrying the
last attempt's error message. -/
theorem executeJob_retryable_retry_bound (att : Nat → AttemptResult) (e : Nat → String)
    (job : BatchJobConfig) (index : Nat) (out : String) (config : BatchConfig)
    (hatt : ∀ j, att j = AttemptResult.failure (e j))
    (hm : ∀ j, (effRetryPatterns config).any
      (fun p => jsIncludes (toLowerStr (e j)) (toLowerStr p)) = true) :
    (executeJob att job index out config).2.1 = effMaxRetries config + 1 ∧
    (executeJob att job index out config).2.2 =
      List.replicate (effMaxRetries config) (effRetryDelay config) ∧
    (executeJob att job index out config).1.status = "failed" ∧
    (executeJob att job index out config).1.error = some (e (effMaxRetries config)) := by
  have hrun : execRun att config =
      ⟨none, e (effMaxRetries config), effMaxRetries config + 1,
        List.replicate (effMaxRetries config) (effRetryDelay config)⟩ := by
    have := runAttempts_all_retryable att e (effMaxRetries config) (effRetryDelay config)
      (effRetryPatterns config) hatt hm (effMaxRetries config + 1) 0 "" (by omega)
    simpa [execRun] using this
  refine ⟨?_, ?_, ?_, ?_⟩ <;> simp [executeJob, hrun, failedResult]

/-- Witness: the retry-bound theorem applied to a job that always fails with
an `Error 429` message under the default policy. -/
theorem executeJob_retryable_retry_bound_witness :
    (executeJob rateLimitAtt sampleJob 0 "out.jpg" sampleConfig).2.1 =
      effMaxRetries sampleConfig + 1 ∧
    (executeJob rateLimitAtt sampleJob 0 "out.jpg" sampleConfig).2.2 =
      List.replicate (effMaxRetries sampleConfig) (effRetryDelay sampleConfig) ∧
    (executeJob rateLimitAtt sampleJob 0 "out.jpg" sampleConfig).1.status = "failed" ∧
    (executeJob rateLimitAtt sampleJob 0 "out.jpg" sampleConfig).1.error =
      some rateLimitMsg :=
  executeJob_retryable_retry_bound rateLimitAtt (fun _ => rateLimitMsg)
    sampleJob 0 "out.jpg" sampleConfig (fun _ => rfl)
    (fun _ => by
      show (effRetryPatterns sampleConfig).any
        (fun p => jsIncludes (toLowerStr rateLimitMsg) (toLowerStr p)) = true
      decide)

/-! ## C4 — the retry decision function -/

/-- The retry decision is true iff the attempt index is below `maxRetries`
and the error message contains, case-insensitively, one of the retryable
patterns as a literal substring; a missing pattern list defaults — both in
`executeJob` and in `mergeBatchConfig` — to exactly
`["rate_limit", "timeout", "429", "503"]`. -/
theorem shouldRetry_spec :
    (∀ e i m ps, shouldRetry e i m ps = true ↔ shouldRetrySpec e i m ps) ∧
    defaultRetryPatterns = ["rate_limit", "timeout", "429", "503"] ∧
    (∀ config : BatchConfig, (effRetryPolicy config).retry_on_errors = none →
      effRetryPatterns config = defaultRetryPatterns) ∧
    (∀ (config : BatchConfig) (options : BatchExecutionOptions) (env : Option String),
      config.retry_policy = none →
      (mergeBatchConfig config options env).retry_policy =
        some { max_retries := some 2, retry_delay_ms := some 1000,
               retry_on_errors := some defaultRetryPatterns }) := by
  refine ⟨?_, rfl, ?_, ?_⟩
  · intro e i m ps
    simp [shouldRetry, shouldRetrySpec, List.any_eq_true]
  · intro config h
    simp [effRetryPatterns, h]
  · intro config options env h
    simp [mergeBatchConfig, h]

/-- Witness: the decision-function theorem applied at concrete inputs, with
the defaulting hypotheses discharged on the sample configuration. -/
theorem shouldRetry_spec_witness :
    (shouldRetry "Request timeout" 0 2 defaultRetryPatterns = true ↔
      shouldRetrySpec "Request timeout" 0 2 defaultRetryPatterns) ∧
    effRetryPatterns sampleConfig = defaultRetryPatterns ∧
    (mergeBatchConfig sampleConfig {} none).retry_policy =
      some { max_retries := some 2, retry_delay_ms := some 1000,
             retry_on_errors := some defaultRetryPatterns } :=
  ⟨shouldRetry_spec.1 "Request timeout" 0 2 defaultRetryPatterns,
   shouldRetry_spec.2.2.1 sampleConfig rfl,
   shouldRetry_spec.2.2.2 sampleConfig {} none rfl⟩

/-! ## C8 — the executor returns only Completed or Failed -/

/-- For every job, policy and external behaviour, the executor's outcome is
`completed` or `failed`; it is never `cancelled`. -/
theorem executeJob_never_cancelled (att : Nat → AttemptResult) (job : BatchJobConfig)
    (index : Nat) (out : String) (config : BatchConfig) :
    ((executeJob att job index out config).1.status = "completed" ∨
      (executeJob att job index out config).1.status = "failed") ∧
    (executeJob att job index out config).1.status ≠ "cancelled" := by
  refine ⟨executeJob_status att job index out config, ?_⟩
  rcases executeJob_status att job index out config with h | h <;> simp [h]

/-! ## C10 — completed outcomes always carry output paths -/

/-- A completed outcome always carries a non-empty `output_paths` list, and
when no saved-path line can be parsed from the successful attempt's response,
that list is exactly the job's single pre-resolved output path. -/
theorem executeJob_completed_output_paths (att : Nat → AttemptResult)
    (job : BatchJobConfig) (index : Nat) (out : String) (config : BatchConfig) :
    ((executeJob att job index out config).1.status = "completed" →
      ∃ ps, (executeJob att job index out config).1.output_paths = some ps ∧ ps ≠ []) ∧
    (∀ r0, (execRun att config).success = some r0 → (parseApiResult r0).1 = [] →
      (executeJob att job index out config).1.output_paths = some [out]) := by
  constructor
  · intro hstat
    cases h : (execRun att config).success with
    | none => simp [executeJob, h, failedResult] at hstat
    | some r =>
      refine ⟨if (parseApiResult r).1 = [] then [out] else (parseApiResult r).1, ?_, ?_⟩
      · simp [executeJob, h, completedResult]
      · split
        · simp
        · assumption
  · intro r0 h0 hempty
    simp [executeJob, h0, completedResult, hempty]

/-- Witness: the output-path theorem applied to a successful call whose
response text contains no saved-path line. -/
theorem executeJob_completed_output_paths_witness :
    (executeJob blankOkAtt sampleJob 0 "generated_1.jpg" sampleConfig).1.output_paths =
      some ["generated_1.jpg"] :=
  (executeJob_completed_output_paths blankOkAtt sampleJob 0 "generated_1.jpg" sampleConfig).2
    (ApiResult.strRes "ok") rfl (by decide)

/-! ## C6 — cost estimation formula and scenario -/

/-- The batch of the specification's cost scenario: two
`grok-imagine-image` jobs, one generating two images and one editing a
single image. -/
def scenarioConfig : BatchConfig :=
  { jobs := [ { prompt := "p1", model := some "grok-imagine-image", n := some 2 },
              { prompt := "p2", model := some "grok-imagine-image", n := some 1,
                image_path := some "in.png" } ] }

/-- Every breakdown entry of the cost estimate carries the specification's
group formula `baseCostPerImage × imageCount + (isEdit ? editSurchargePerJob ×
jobCount : 0)`, priced from the fixed table with unrecognized model
identifiers falling back to the default model's pricing; on the scenario
batch this yields 3 total images and a cost of exactly 0.062 for both bounds. -/
theorem estimateBatchCost_formula :
    (∀ config : BatchConfig, (estimateBatchCost config).breakdown =
      (groupJobs config).map (fun g =>
        ⟨g.1, g.2.count, g.2.images,
         specGroupCost (lookupModelCost (String.mk (dropFirstEdit g.1.toList))).base
           (lookupModelCost (String.mk (dropFirstEdit g.1.toList))).edit_input
           g.2.images g.2.count g.2.isEdit,
         specGroupCost (lookupModelCost (String.mk (dropFirstEdit g.1.toList))).base
           (lookupModelCost (String.mk (dropFirstEdit g.1.toList))).edit_input
           g.2.images g.2.count g.2.isEdit⟩)) ∧
    (∀ m, lookupCost MODEL_COSTS m = none →
      lookupModelCost m = lookupModelCost "grok-imagine-image") ∧
    (estimateBatchCost scenarioConfig).totalImages = 3 ∧
    (estimateBatchCost scenarioConfig).estimatedCostMin = 62 / 1000 ∧
    (estimateBatchCost scenarioConfig).estimatedCostMax = 62 / 1000 := by
  have hg : groupJobs scenarioConfig =
      [("grok-imagine-image", ⟨1, 2, false⟩), ("grok-imagine-image_edit", ⟨1, 1, true⟩)] := by
    decide
  have h2 : groupCost "grok-imagine-image" ⟨1, 2, false⟩ =
      (0.02 : ℚ) * ((2 : ℕ) : ℚ) + 0 := rfl
  have h3 : groupCost "grok-imagine-image_edit" ⟨1, 1, true⟩ =
      (0.02 : ℚ) * ((1 : ℕ) : ℚ) + (0.002 : ℚ) * ((1 : ℕ) : ℚ) := rfl
  have hcost : (estimateBatchCost scenarioConfig).estimatedCostMin = 62 / 1000 := by
    simp only [estimateBatchCost, hg, List.map_cons, List.map_nil, List.sum_cons, List.sum_nil]
    rw [h2, h3]
    norm_num
  refine ⟨?_, ?_, by decide, hcost, hcost⟩
  · intro config
    rfl
  · intro m h
    simp [lookupModelCost, h]
    rfl

/-- Witness: the fallback hypothesis discharged on a concrete unrecognized
model identifier. -/
theorem estimateBatchCost_formula_witness :
    lookupModelCost "grok-3-image" = lookupModelCost "grok-imagine-image" :=
  estimateBatchCost_formula.2.1 "grok-3-image" (by decide)

/-! ## C9 — the cost estimator is deterministic and effect-free

`estimateBatchCost` contains no filesystem call, no `await` and no mutation,
so its world-passing embedding returns the world unchanged, and its value
component depends only on the configuration argument. -/

/-- Calling the estimator leaves the world (files, environment) unchanged
and does not depend on it: two calls in sequence on the same configuration
return identical estimates, and the input configuration is left untouched. -/
theorem estimateBatchCost_pure :
    ∀ (config : BatchConfig) (w : World),
      (estimateBatchCostRun config w).2 = w ∧
      (estimateBatchCostRun config ((estimateBatchCostRun config w).2)).1 =
        (estimateBatchCostRun config w).1 ∧
      ∀ w' : World, (estimateBatchCostRun config w').1 = (estimateBatchCostRun config w).1 :=
  fun _ _ => ⟨rfl, rfl, fun _ => rfl⟩

/-! ## C7 — the concurrency limiter's invariant and FIFO fairness -/

/-- Inductive invariant of the semaphore: permit holders plus free permits
always total the capacity, and the enqueue history is exactly the wake
history followed by the still-pending queue (so waiters are woken in enqueue
order, front first). -/
def SemInv (c : Nat) (s : SemState) : Prop :=
  s.active + s.permits = c ∧ s.enqueued = s.woken ++ s.queue

/-- One valid step preserves the invariant. -/
theorem semStep_inv (c : Nat) (s : SemState) (op : SemOp) (h : SemInv c s)
    (hv : op = SemOp.release → 0 < s.active) : SemInv c (semStep s op) := by
  obtain ⟨hsum, hq⟩ := h
  cases op with
  | acquire =>
    by_cases hp : 0 < s.permits
    · exact ⟨by simp [semStep, hp]; omega, by simp [semStep, hp, hq]⟩
    · exact ⟨by simp [semStep, hp]; omega, by simp [semStep, hp, hq]⟩
  | release =>
    have ha : 0 < s.active := hv rfl
    cases hqs : s.queue with
    | nil =>
      refine ⟨by simp [semStep, hqs]; omega, ?_⟩
      simpa [semStep, hqs] using hq
    | cons w ws =>
      refine ⟨by simp [semStep, hqs]; omega, ?_⟩
      simp only [semStep, hqs]
      rw [hq, hqs]
      simp

/-- Valid runs preserve the invariant. -/
theorem semRun_inv (c : Nat) : ∀ (ops : List SemOp) (s : SemState),
    SemInv c s → semValid s ops = true → SemInv c (semRun s ops) := by
  intro ops
  induction ops with
  | nil => intro s h _; exact h
  | cons op rest ih =>
    intro s h hv
    simp only [semValid, Bool.and_eq_true] at hv
    refine ih (semStep s op) (semStep_inv c s op h ?_) hv.2
    intro hop
    cases op with
    | acquire => cases hop
    | release => simpa using hv.1

/-- Validity of a run splits over concatenation. -/
theorem semValid_append : ∀ (p q : List SemOp) (s : SemState),
    semValid s (p ++ q) = (semValid s p && semValid (semRun s p) q) := by
  intro p
  induction p with
  | nil => intro q s; simp [semValid, semRun]
  | cons op rest ih =>
    intro q s
    simp [semValid, semRun, ih, Bool.and_assoc]

/-- Throughout every valid run from the initial state, at most `c` tasks
hold a permit simultaneously (granted minus released never exceeds the
capacity), the initial permit count is the capacity, and waiters are woken
in FIFO order: at every point the wake history is a prefix of the enqueue
history. -/
theorem semaphore_bound_and_fifo (c : Nat) (ops p rest : List SemOp)
    (hsplit : p ++ rest = ops) (hv : semValid (semInit c) ops = true) :
    (semRun (semInit c) p).active ≤ c ∧
    (∃ r, (semRun (semInit c) p).woken ++ r = (semRun (semInit c) p).enqueued) ∧
    (semInit c).permits = c := by
  subst hsplit
  rw [semValid_append, Bool.and_eq_true] at hv
  have hinv : SemInv c (semRun (semInit c) p) :=
    semRun_inv c p (semInit c) ⟨by simp [semInit], by simp [semInit]⟩ hv.1
  refine ⟨?_, ⟨(semRun (semInit c) p).queue, hinv.2.symm⟩, rfl⟩
  have := hinv.1
  omega

/-- Witness: the bound and FIFO property at a prefix of a concrete valid
trace on a capacity-1 semaphore (two acquirers, the second suspended, then
one release waking it). -/
theorem semaphore_bound_and_fifo_witness :
    (semRun (semInit 1) [SemOp.acquire, SemOp.acquire, SemOp.release]).active ≤ 1 ∧
    (∃ r, (semRun (semInit 1) [SemOp.acquire, SemOp.acquire, SemOp.release]).woken ++ r =
      (semRun (semInit 1) [SemOp.acquire, SemOp.acquire, SemOp.release]).enqueued) ∧
    (semInit 1).permits = 1 :=
  semaphore_bound_and_fifo 1 [SemOp.acquire, SemOp.acquire, SemOp.release, SemOp.release]
    [SemOp.acquire, SemOp.acquire, SemOp.release] [SemOp.release] rfl (by decide)

/-! ## Scheduler lemmas -/

instance : IsTotal BatchJobResult (fun a b => a.index ≤ b.index) :=
  ⟨fun a b => Nat.le_total a.index b.index⟩

instance : IsTrans BatchJobResult (fun a b => a.index ≤ b.index) :=
  ⟨fun _ _ _ h1 h2 => Nat.le_trans h1 h2⟩

/-- Index field of a synthesized cancelled outcome. -/
theorem cancelledResult_index (j : Nat) (p : String) : (cancelledResult j p).index = j := rfl

/-- Unfolding one finished job. -/
theorem batchFinished_cons (config : BatchConfig) (att : Nat → Nat → AttemptResult)
    (rp : Nat → String) (i : Nat) (rest : List Nat) (hi : i < config.jobs.length) :
    batchFinished config att rp (i :: rest) =
      (executeJob (att i) (config.jobs.get ⟨i, hi⟩) i (rp i) config).1 ::
        batchFinished config att rp rest := by
  simp [batchFinished, List.filterMap_cons, List.getElem?_eq_getElem hi, List.get_eq_getElem]

/-- The recorded results carry exactly the finished jobs' 1-based indices,
in completion order. -/
theorem batchFinished_map_index (config : BatchConfig) (att : Nat → Nat → AttemptResult)
    (rp : Nat → String) :
    ∀ order : List Nat, (∀ i ∈ order, i < config.jobs.length) →
      (batchFinished config att rp order).map (fun r => r.index) = order.map (· + 1) := by
  intro order
  induction order with
  | nil => intro _; rfl
  | cons i rest ih =>
    intro h
    have hi : i < config.jobs.length := h i (by simp)
    rw [batchFinished_cons config att rp i rest hi]
    simp [executeJob_index, ih (fun j hj => h j (by simp [hj]))]

/-- Every recorded result is an executor outcome: `completed` or `failed`. -/
theorem batchFinished_status (config : BatchConfig) (att : Nat → Nat → AttemptResult)
    (rp : Nat → String) (order : List Nat) :
    ∀ r ∈ batchFinished config att rp order,
      r.status = "completed" ∨ r.status = "failed" := by
  intro r hr
  obtain ⟨i, _, hmap⟩ := List.mem_filterMap.mp hr
  obtain ⟨job, _, hres⟩ := Option.map_eq_some'.mp hmap
  exact hres ▸ executeJob_status (att i) job i (rp i) config

/-- Every swept result is cancelled with the timeout message. -/
theorem batchCancelledFill_status (config : BatchConfig) (cIdx : List Nat) :
    ∀ r ∈ batchCancelledFill config cIdx,
      r.status = "cancelled" ∧ r.error = some "Job cancelled due to timeout" := by
  intro r hr
  obtain ⟨i, _, hmap⟩ := List.mem_filterMap.mp hr
  by_cases hmem : (i + 1) ∈ cIdx
  · simp [hmem] at hmap
  · simp only [hmem, if_neg, if_false] at hmap
    obtain ⟨job, _, hres⟩ := Option.map_eq_some'.mp (by simpa [hmem] using hmap)
    exact hres ▸ ⟨rfl, rfl⟩

/-- The sweep produces exactly the unrecorded indices, in ascending order,
shifted to 1-based. -/
theorem batchCancelledFill_map_index (config : BatchConfig) (cIdx : List Nat) :
    (batchCancelledFill config cIdx).map (fun r => r.index) =
      ((List.range config.jobs.length).filter (fun i => !decide ((i + 1) ∈ cIdx))).map (· + 1) := by
  unfold batchCancelledFill
  have key : ∀ l : List Nat, (∀ i ∈ l, i < config.jobs.length) →
      ((l.filterMap (fun i => if (i + 1) ∈ cIdx then none
          else config.jobs[i]?.map (fun job => cancelledResult (i + 1) job.prompt))).map
            (fun r => r.index)
        = (l.filter (fun i => !decide ((i + 1) ∈ cIdx))).map (· + 1)) := by
    intro l
    induction l with
    | nil => intro _; rfl
    | cons i rest ih =>
      intro h
      have hi : i < config.jobs.length := h i (by simp)
      have hrest := ih (fun j hj => h j (by simp [hj]))
      by_cases hmem : (i + 1) ∈ cIdx
      · simp [List.filterMap_cons, hmem, hrest, List.filter_cons]
      · simp [List.filterMap_cons, hmem, hrest, List.getElem?_eq_getElem hi,
          cancelledResult_index, List.filter_cons]
  exact key _ (fun i hi => List.mem_range.mp hi)

/-- Membership of a synthesized cancelled outcome for an unrecorded index. -/
theorem batchCancelledFill_mem (config : BatchConfig) (cIdx : List Nat) (i : Nat)
    (hi : i < config.jobs.length) (hn : (i + 1) ∉ cIdx) :
    cancelledResult (i + 1) (config.jobs.get ⟨i, hi⟩).prompt ∈ batchCancelledFill config cIdx := by
  unfold batchCancelledFill
  refine List.mem_filterMap.mpr ⟨i, List.mem_range.mpr hi, ?_⟩
  simp [hn, List.getElem?_eq_getElem hi, List.get_eq_getElem]

/-- The finished indices together with the unfinished ones are a permutation
of all job positions. -/
theorem order_filter_perm_range (n : Nat) (order : List Nat) (hnd : order.Nodup)
    (hlt : ∀ i ∈ order, i < n) :
    (order ++ (List.range n).filter (fun i => !decide (i ∈ order))).Perm (List.range n) := by
  have hdisj : List.Disjoint order ((List.range n).filter (fun i => !decide (i ∈ order))) := by
    intro a ha hb
    have := (List.mem_filter.mp hb).2
    simp at this
    exact this ha
  refine (List.perm_ext_iff_of_nodup
    (hnd.append ((List.nodup_range n).filter _) hdisj) (List.nodup_range n)).mpr ?_
  intro a
  constructor
  · intro ha
    rcases List.mem_append.mp ha with h | h
    · exact List.mem_range.mpr (hlt a h)
    · exact (List.mem_filter.mp h).1
  · intro ha
    by_cases hm : a ∈ order
    · exact List.mem_append.mpr (Or.inl hm)
    · exact List.mem_append.mpr (Or.inr (List.mem_filter.mpr ⟨ha, by simp [hm]⟩))

/-- The sorted result list carries exactly the indices `1..len(jobs)`, in
ascending order. -/
theorem batchResults_map_index (config : BatchConfig) (att : Nat → Nat → AttemptResult)
    (rp : Nat → String) (order : List Nat) (hnd : order.Nodup)
    (hlt : ∀ i ∈ order, i < config.jobs.length) :
    (batchResults config att rp order).map (fun r => r.index) =
      (List.range config.jobs.length).map (· + 1) := by
  set n := config.jobs.length with hn
  set fin := batchFinished config att rp order with hfin
  set fill := batchCancelledFill config (fin.map (fun r => r.index)) with hfill
  have hfinmap : fin.map (fun r => r.index) = order.map (· + 1) :=
    batchFinished_map_index config att rp order hlt
  have hfillmap : fill.map (fun r => r.index) =
      ((List.range n).filter (fun i => !decide (i ∈ order))).map (· + 1) := by
    rw [hfill, batchCancelledFill_map_index, hfinmap]
    congr 1
    apply List.filter_congr
    intro i _
    congr 1
    rw [decide_eq_decide]
    constructor
    · intro hmem
      obtain ⟨a, ha, hai⟩ := List.mem_map.mp hmem
      have haa : a = i := by omega
      exact haa ▸ ha
    · intro hmem
      exact List.mem_map.mpr ⟨i, hmem, rfl⟩
  have hperm0 : (batchResults config att rp order).Perm (fin ++ fill) :=
    List.perm_insertionSort _ _
  have hpermIdx : ((batchResults config att rp order).map (fun r => r.index)).Perm
      ((List.range n).map (· + 1)) := by
    refine (hperm0.map (fun r => r.index)).trans ?_
    rw [List.map_append, hfinmap, hfillmap, ← List.map_append]
    exact (order_filter_perm_range n order hnd hlt).map (· + 1)
  have hsortedL : List.Sorted (· ≤ ·)
      ((batchResults config att rp order).map (fun r => r.index)) := by
    refine List.pairwise_map.mpr ?_
    exact List.sorted_insertionSort (fun a b => a.index ≤ b.index) (fin ++ fill)
  have hsortedR : List.Sorted (· ≤ ·) ((List.range n).map (· + 1)) := by
    refine List.pairwise_map.mpr ?_
    exact (List.sorted_lt_range n).imp (fun hab => by omega)
  exact List.eq_of_perm_of_sorted hpermIdx hsortedL hsortedR

/-- The recorded results count the finished jobs. -/
theorem batchFinished_length (config : BatchConfig) (att : Nat → Nat → AttemptResult)
    (rp : Nat → String) (order : List Nat) (hlt : ∀ i ∈ order, i < config.jobs.length) :
    (batchFinished config att rp order).length = order.length := by
  have h := congrArg List.length (batchFinished_map_index config att rp order hlt)
  simpa using h

/-- A list whose statuses are all among the three outcome kinds is counted
exactly once by the three status counters together. -/
theorem countP_three_statuses : ∀ l : List BatchJobResult,
    (∀ r ∈ l, r.status = "completed" ∨ r.status = "failed" ∨ r.status = "cancelled") →
    l.countP (fun r => decide (r.status = "completed")) +
      l.countP (fun r => decide (r.status = "failed")) +
      l.countP (fun r => decide (r.status = "cancelled")) = l.length := by
  intro l
  induction l with
  | nil => intro _; rfl
  | cons r t ih =>
    intro h
    have ht := ih (fun x hx => h x (by simp [hx]))
    rcases h r (by simp) with hs | hs | hs <;>
      simp [List.countP_cons, hs] <;> omega

/-- A list of executor outcomes is exhausted by the completed and failed
counters. -/
theorem countP_two_statuses : ∀ l : List BatchJobResult,
    (∀ r ∈ l, r.status = "completed" ∨ r.status = "failed") →
    l.countP (fun r => decide (r.status = "completed")) +
      l.countP (fun r => decide (r.status = "failed")) = l.length := by
  intro l
  induction l with
  | nil => intro _; rfl
  | cons r t ih =>
    intro h
    have ht := ih (fun x hx => h x (by simp [hx]))
    rcases h r (by simp) with hs | hs <;>
      simp [List.countP_cons, hs] <;> omega

/-- Swept results contribute to neither the completed nor the failed count. -/
theorem countP_cancelled_zero : ∀ l : List BatchJobResult,
    (∀ r ∈ l, r.status = "cancelled") →
    l.countP (fun r => decide (r.status = "completed")) = 0 ∧
      l.countP (fun r => decide (r.status = "failed")) = 0 := by
  intro l
  induction l with
  | nil => intro _; exact ⟨rfl, rfl⟩
  | cons r t ih =>
    intro h
    have ht := ih (fun x hx => h x (by simp [hx]))
    have hs := h r (by simp)
    refine ⟨?_, ?_⟩ <;> simp [List.countP_cons, hs, ht.1, ht.2]

/-! ## C2 — report shape: one result per job, indices 1..n, counts add up -/

/-- For every batch and every completion schedule, the report has exactly one
result per job, the result indices are exactly `1..len(jobs)` in ascending
order, and the three status counters sum to the job count. -/
theorem executeBatch_report_shape (config : BatchConfig) (att : Nat → Nat → AttemptResult)
    (rp : Nat → String) (order : List Nat) (hnd : order.Nodup)
    (hlt : ∀ i ∈ order, i < config.jobs.length) :
    (executeBatch config att rp order).results.length = config.jobs.length ∧
    (executeBatch config att rp order).results.map (fun r => r.index) =
      (List.range config.jobs.length).map (· + 1) ∧
    (executeBatch config att rp order).succeeded + (executeBatch config att rp order).failed +
      (executeBatch config att rp order).cancelled = config.jobs.length := by
  have hidx := batchResults_map_index config att rp order hnd hlt
  have hlen : (batchResults config att rp order).length = config.jobs.length := by
    have h := congrArg List.length hidx
    simpa using h
  have hperm : (batchResults config att rp order).Perm
      (batchFinished config att rp order ++
        batchCancelledFill config ((batchFinished config att rp order).map (fun r => r.index))) :=
    List.perm_insertionSort _ _
  have hstat : ∀ r ∈ (batchFinished config att rp order ++
      batchCancelledFill config ((batchFinished config att rp order).map (fun r => r.index))),
      r.status = "completed" ∨ r.status = "failed" ∨ r.status = "cancelled" := by
    intro r hr
    rcases List.mem_append.mp hr with h | h
    · rcases batchFinished_status config att rp order r h with h' | h'
      · exact Or.inl h'
      · exact Or.inr (Or.inl h')
    · exact Or.inr (Or.inr (batchCancelledFill_status config _ r h).1)
  refine ⟨hlen, hidx, ?_⟩
  have hc := hperm.countP_eq (fun r => decide (r.status = "completed"))
  have hf := hperm.countP_eq (fun r => decide (r.status = "failed"))
  have hx := hperm.countP_eq (fun r => decide (r.status = "cancelled"))
  have hsum := countP_three_statuses _ hstat
  have hlen2 := hperm.length_eq
  show (batchResults config att rp order).countP _ + (batchResults config att rp order).countP _ +
    (batchResults config att rp order).countP _ = config.jobs.length
  omega

/-- Witness: the report-shape theorem on a concrete two-job batch in which
only the second job finished before the sweep. -/
theorem executeBatch_report_shape_witness :
    (executeBatch scenarioConfig (fun _ _ => AttemptResult.success (ApiResult.strRes "ok"))
      (fun _ => "out.jpg") [1]).results.length = scenarioConfig.jobs.length ∧
    (executeBatch scenarioConfig (fun _ _ => AttemptResult.success (ApiResult.strRes "ok"))
      (fun _ => "out.jpg") [1]).results.map (fun r => r.index) =
      (List.range scenarioConfig.jobs.length).map (· + 1) ∧
    (executeBatch scenarioConfig (fun _ _ => AttemptResult.success (ApiResult.strRes "ok"))
      (fun _ => "out.jpg") [1]).succeeded +
      (executeBatch scenarioConfig (fun _ _ => AttemptResult.success (ApiResult.strRes "ok"))
        (fun _ => "out.jpg") [1]).failed +
      (executeBatch scenarioConfig (fun _ _ => AttemptResult.success (ApiResult.strRes "ok"))
        (fun _ => "out.jpg") [1]).cancelled = scenarioConfig.jobs.length :=
  executeBatch_report_shape scenarioConfig (fun _ _ => AttemptResult.success (ApiResult.strRes "ok"))
    (fun _ => "out.jpg") [1] (by decide) (by decide)

/-! ## C5 — timeout sweep: unfinished jobs become Cancelled, counts reflect
finished jobs only -/

/-- Every job whose task did not finish before the sweep appears in the
report as cancelled with the timeout message, and the completed and failed
counters together count exactly the jobs that finished in time. -/
theorem executeBatch_timeout_sweep (config : BatchConfig) (att : Nat → Nat → AttemptResult)
    (rp : Nat → String) (order : List Nat)
    (hlt : ∀ i ∈ order, i < config.jobs.length) :
    (∀ i, i < config.jobs.length → i ∉ order →
      ∃ r ∈ (executeBatch config att rp order).results,
        r.index = i + 1 ∧ r.status = "cancelled" ∧
          r.error = some "Job cancelled due to timeout") ∧
    (executeBatch config att rp order).succeeded +
      (executeBatch config att rp order).failed = order.length := by
  have hfinmap := batchFinished_map_index config att rp order hlt
  have hperm : (batchResults config att rp order).Perm
      (batchFinished config att rp order ++
        batchCancelledFill config ((batchFinished config att rp order).map (fun r => r.index))) :=
    List.perm_insertionSort _ _
  constructor
  · intro i hi hni
    have hnmem : (i + 1) ∉ (batchFinished config att rp order).map (fun r => r.index) := by
      rw [hfinmap]
      intro hmem
      obtain ⟨a, ha, haa⟩ := List.mem_map.mp hmem
      have : a = i := by omega
      exact hni (this ▸ ha)
    refine ⟨cancelledResult (i + 1) (config.jobs.get ⟨i, hi⟩).prompt, ?_, rfl, rfl, rfl⟩
    show _ ∈ (batchResults config att rp order)
    exact hperm.mem_iff.mpr
      (List.mem_append.mpr (Or.inr (batchCancelledFill_mem config _ i hi hnmem)))
  · have h1 := countP_two_statuses (batchFinished config att rp order)
      (batchFinished_status config att rp order)
    have h2 := countP_cancelled_zero
      (batchCancelledFill config ((batchFinished config att rp order).map (fun r => r.index)))
      (fun r hr => (batchCancelledFill_status config _ r hr).1)
    have hflen := batchFinished_length config att rp order hlt
    have hc := hperm.countP_eq (fun r => decide (r.status = "completed"))
    have hf := hperm.countP_eq (fun r => decide (r.status = "failed"))
    rw [List.countP_append] at hc hf
    show (batchResults config att rp order).countP _ +
      (batchResults config att rp order).countP _ = order.length
    omega

/-- Witness: the sweep theorem on a concrete two-job batch in which job 1
did not finish, instantiated at the unfinished index 0. -/
theorem executeBatch_timeout_sweep_witness :
    (∃ r ∈ (executeBatch scenarioConfig (fun _ _ => AttemptResult.success (ApiResult.strRes "ok"))
        (fun _ => "sweep_out.jpg") [1]).results,
      r.index = 0 + 1 ∧ r.status = "cancelled" ∧
        r.error = some "Job cancelled due to timeout") ∧
    (executeBatch scenarioConfig (fun _ _ => AttemptResult.success (ApiResult.strRes "ok"))
      (fun _ => "sweep_out.jpg") [1]).succeeded +
      (executeBatch scenarioConfig (fun _ _ => AttemptResult.success (ApiResult.strRes "ok"))
        (fun _ => "sweep_out.jpg") [1]).failed = [1].length :=
  ⟨(executeBatch_timeout_sweep scenarioConfig
      (fun _ _ => AttemptResult.success (ApiResult.strRes "ok"))
      (fun _ => "sweep_out.jpg") [1] (by decide)).1 0 (by decide) (by decide),
   (executeBatch_timeout_sweep scenarioConfig
      (fun _ _ => AttemptResult.success (ApiResult.strRes "ok"))
      (fun _ => "sweep_out.jpg") [1] (by decide)).2⟩

end GrokBatch
